import Mathlib

/-!
Verification of the SkyTrip core: scoring engine, rate limiter, unit
normalizer, response cache, tolerant JSON decoder, weather route and
flight-search normalization, shallowly embedded from the TypeScript source.
JavaScript numbers are modelled as `JSNum`: either a finite rational or one
of the IEEE special values NaN, +Infinity, -Infinity.
-/

/-- Model of a JavaScript number: NaN, +Infinity, -Infinity, or a finite
value idealized as a rational. -/
inductive JSNum where
  | nan : JSNum
  | posInf : JSNum
  | negInf : JSNum
  | fin : ℚ → JSNum
deriving DecidableEq, Repr

namespace JSNum

/-- `Number.isFinite`. -/
def isFinite : JSNum → Bool
  | fin _ => true
  | _ => false

/-- JavaScript `<` on numbers: any comparison with NaN is false. -/
def jlt : JSNum → JSNum → Bool
  | nan, _ => false
  | _, nan => false
  | fin a, fin b => a < b
  | fin _, posInf => true
  | fin _, negInf => false
  | posInf, _ => false
  | negInf, negInf => false
  | negInf, _ => true

/-- JavaScript `<=` on numbers: any comparison with NaN is false. -/
def jle : JSNum → JSNum → Bool
  | nan, _ => false
  | _, nan => false
  | fin a, fin b => a ≤ b
  | fin _, posInf => true
  | fin _, negInf => false
  | posInf, posInf => true
  | posInf, _ => false
  | negInf, _ => true

/-- JavaScript `===` on numbers: NaN is not equal to anything. -/
def jeq : JSNum → JSNum → Bool
  | nan, _ => false
  | _, nan => false
  | fin a, fin b => a == b
  | posInf, posInf => true
  | negInf, negInf => true
  | _, _ => false

/-- JavaScript negation of a number. -/
def jneg : JSNum → JSNum
  | nan => nan
  | posInf => negInf
  | negInf => posInf
  | fin a => fin (-a)

/-- JavaScript `+` on numbers. -/
def jadd : JSNum → JSNum → JSNum
  | nan, _ => nan
  | _, nan => nan
  | posInf, negInf => nan
  | negInf, posInf => nan
  | posInf, _ => posInf
  | _, posInf => posInf
  | negInf, _ => negInf
  | _, negInf => negInf
  | fin a, fin b => fin (a + b)

/-- JavaScript `-` on numbers. -/
def jsub (a b : JSNum) : JSNum := jadd a (jneg b)

/-- JavaScript `*` on numbers (signed zero is not modelled; the single
rational zero behaves as +0). -/
def jmul : JSNum → JSNum → JSNum
  | nan, _ => nan
  | _, nan => nan
  | posInf, posInf => posInf
  | posInf, negInf => negInf
  | negInf, posInf => negInf
  | negInf, negInf => posInf
  | posInf, fin b => if b = 0 then nan else if 0 < b then posInf else negInf
  | fin a, posInf => if a = 0 then nan else if 0 < a then posInf else negInf
  | negInf, fin b => if b = 0 then nan else if 0 < b then negInf else posInf
  | fin a, negInf => if a = 0 then nan else if 0 < a then negInf else posInf
  | fin a, fin b => fin (a * b)

/-- JavaScript `/` on numbers (signed zero is not modelled; division by the
single zero behaves as division by +0). -/
def jdiv : JSNum → JSNum → JSNum
  | nan, _ => nan
  | _, nan => nan
  | posInf, posInf => nan
  | posInf, negInf => nan
  | negInf, posInf => nan
  | negInf, negInf => nan
  | posInf, fin b => if 0 ≤ b then posInf else negInf
  | negInf, fin b => if 0 ≤ b then negInf else posInf
  | fin _, posInf => fin 0
  | fin _, negInf => fin 0
  | fin a, fin b =>
      if b = 0 then (if a = 0 then nan else if 0 < a then posInf else negInf)
      else fin (a / b)

/-- JavaScript `Math.max` of two numbers: NaN if either operand is NaN. -/
def jmax : JSNum → JSNum → JSNum
  | nan, _ => nan
  | _, nan => nan
  | a, b => if jlt a b then b else a

/-- JavaScript `Math.min` of two numbers: NaN if either operand is NaN. -/
def jmin : JSNum → JSNum → JSNum
  | nan, _ => nan
  | _, nan => nan
  | a, b => if jlt b a then b else a

/-- The rational carried by a finite `JSNum` (0 for the special values). -/
def toQ : JSNum → ℚ
  | fin a => a
  | _ => 0

end JSNum

open JSNum

/-- The temperature preference band passed to the temperature score
(`pref.min` and `pref.max` in the source, renamed `lo` and `hi` here). -/
structure TempPref where
  lo : JSNum
  hi : JSNum
deriving DecidableEq, Repr

/-- `weatherScore(temp, pref)` from the scoring module: 100 inside the band,
otherwise a penalty proportional to the distance from the nearest bound,
normalized by the band width (at least 5), capped at 95, floored at 5. -/
def weatherScore (temp : JSNum) (pref : TempPref) : JSNum :=
  if jle pref.lo temp && jle temp pref.hi then fin 100
  else
    let distanceFromIdeal : JSNum :=
      if jlt temp pref.lo then jsub pref.lo temp
      else if jlt pref.hi temp then jsub temp pref.hi
      else fin 0
    let range := jsub pref.hi pref.lo
    let referenceRange := jmax range (fin 5)
    let normalizedDistance := jdiv distanceFromIdeal referenceRange
    let penalty := jmin (jmul normalizedDistance (fin 50)) (fin 95)
    jmax (fin 5) (jsub (fin 100) penalty)

/-- `priceScore(price, budget)` from the scoring module: 0 on non-finite or
non-positive inputs, 100 at the budget, 70-100 below it, penalized above it. -/
def priceScore (price budget : JSNum) : JSNum :=
  if !price.isFinite || jle price (fin 0) then fin 0
  else if !budget.isFinite || jle budget (fin 0) then fin 0
  else if jle price budget then
    if jeq price budget then fin 100
    else
      let ratio := jdiv price budget
      if jle (fin (8/10)) ratio then
        jadd (fin 95) (jmul (jsub ratio (fin (8/10))) (fin 25))
      else if jle (fin (1/2)) ratio then
        jadd (fin 85) (jmul (jsub ratio (fin (1/2))) (fin (3333/100)))
      else
        jadd (fin 70) (jmul (jdiv ratio (fin (1/2))) (fin 15))
  else
    let excessRatio := jdiv price budget
    let overBudgetRatio := jsub excessRatio (fin 1)
    let penalty := jmin (jmul overBudgetRatio (fin 100)) (fin 95)
    let finalPenalty :=
      if jlt (fin (1/2)) overBudgetRatio then
        jmin (jadd (fin 50) (jmul (jsub overBudgetRatio (fin (1/2))) (fin 90))) (fin 95)
      else penalty
    jmax (fin 5) (jsub (fin 100) finalPenalty)

/-- `durationScore(durationMinutes, shortestDurationMinutes)` from the
scoring module. -/
def durationScore (durationMinutes shortestDurationMinutes : JSNum) : JSNum :=
  if !durationMinutes.isFinite || jle durationMinutes (fin 0) then fin 0
  else if !shortestDurationMinutes.isFinite || jle shortestDurationMinutes (fin 0) then fin 0
  else if jeq durationMinutes shortestDurationMinutes then fin 100
  else if jlt durationMinutes shortestDurationMinutes then fin 100
  else
    let durationRatio := jdiv durationMinutes shortestDurationMinutes
    let overShortestRatio := jsub durationRatio (fin 1)
    let penalty0 := jmul overShortestRatio (fin 80)
    let penalty1 :=
      if jlt (fin (1/2)) overShortestRatio then
        jadd (fin 40) (jmul (jsub overShortestRatio (fin (1/2))) (fin 100))
      else penalty0
    let penalty := jmin penalty1 (fin 95)
    jmax (fin 5) (jsub (fin 100) penalty)

/-- `composite(temp, price, pref, budget, durationMinutes,
shortestDurationMinutes)` from the scoring module: the 40/30/30 weighted
combination of the three sub-scores. -/
def composite (temp price : JSNum) (pref : TempPref)
    (budget durationMinutes shortestDurationMinutes : JSNum) : JSNum :=
  let tempScore := weatherScore temp pref
  let priceScoreVal := priceScore price budget
  let durationScoreVal := durationScore durationMinutes shortestDurationMinutes
  jadd (jadd (jmul priceScoreVal (fin (4/10))) (jmul tempScore (fin (3/10))))
    (jmul durationScoreVal (fin (3/10)))

example : weatherScore (fin 20) ⟨fin 15, fin 25⟩ = fin 100 := by
  norm_num [weatherScore, jle]
example : priceScore (fin 100) (fin 100) = fin 100 := by
  norm_num [priceScore, isFinite, jle, jeq]
example : priceScore (fin 200) (fin 100) = fin 5 := by
  norm_num [priceScore, isFinite, jle, jeq, jlt, jdiv, jsub, jadd, jneg, jmul, jmin, jmax]
example : priceScore (fin 110) (fin 100) = fin 90 := by
  norm_num [priceScore, isFinite, jle, jeq, jlt, jdiv, jsub, jadd, jneg, jmul, jmin, jmax]
example : weatherScore nan ⟨fin 15, fin 25⟩ = fin 100 := by
  norm_num [weatherScore, jle, jlt, jdiv, jsub, jadd, jneg, jmul, jmin, jmax]

/-! ### Rate-limited fetcher: sliding-window limiter (`rlFetch` preamble) -/

/-- The sliding-window length in milliseconds (`WINDOW = 60_000`). -/
def windowMs : ℤ := 60000

/-- The per-window request cap (`LIMIT = 20`). -/
def limitCount : ℕ := 20

/-- `stamps.filter((t) => now - t < WINDOW)`: drop timestamps that have left
the sliding window. -/
def pruneStamps (now : ℤ) (stamps : List ℤ) : List ℤ :=
  stamps.filter (fun t => now - t < windowMs)

/-- One pass through the limiter preamble of `rlFetch`: prune, then if the
retained count is at the cap wait `WINDOW - (now - stamps[0])`, then record
the post-wait timestamp. Returns the admission time and the new stamp list. -/
def rlAdmit (now : ℤ) (stamps : List ℤ) : ℤ × List ℤ :=
  let pruned := pruneStamps now stamps
  if limitCount ≤ pruned.length then
    let wait := windowMs - (now - pruned.headD 0)
    (now + wait, pruned ++ [now + wait])
  else
    (now, pruned ++ [now])

/-- Admission times of `n` back-to-back calls: each call enters the limiter
at the instant the previous one was admitted. -/
def runCalls : ℕ → ℤ → List ℤ → List ℤ
  | 0, _, _ => []
  | n + 1, now, stamps =>
    let r := rlAdmit now stamps
    r.1 :: runCalls n r.1 r.2

example : runCalls 25 0 [] = List.replicate 20 0 ++ List.replicate 5 60000 := by decide

/-! ### Unit normalizer (`getHistory` temperature heuristic) -/

/-- Number of readings in the typical Fahrenheit range
(`temps.filter(t => t >= 32 && t <= 100).length`). -/
def fahrenheitCount (temps : List ℚ) : ℕ :=
  (temps.filter (fun t => decide (32 ≤ t) && decide (t ≤ 100))).length

/-- `temps.reduce((sum, t) => sum + t, 0) / temps.length`. -/
def avgTemp (temps : List ℚ) : ℚ := temps.sum / temps.length

/-- `Math.max(...temps)` over a batch (the source only evaluates it on
nonempty batches). -/
def maxTemp : List ℚ → ℚ
  | [] => 0
  | t :: ts => ts.foldl max t

/-- `Math.min(...temps)` over a batch (the source only evaluates it on
nonempty batches). -/
def minTemp : List ℚ → ℚ
  | [] => 0
  | t :: ts => ts.foldl min t

/-- The batch-level Fahrenheit classification of `getHistory`. -/
def likelyFahrenheit (temps : List ℚ) : Bool :=
  let fahrenheitRatio : ℚ := (fahrenheitCount temps : ℚ) / (temps.length : ℚ)
  decide (7/10 < fahrenheitRatio) ||
    (decide (32 ≤ avgTemp temps) && decide (avgTemp temps ≤ 100) &&
      decide (maxTemp temps < 130)) ||
    (decide (32 ≤ minTemp temps) && decide (maxTemp temps ≤ 100) &&
      decide (5 < temps.length)) ||
    (decide (50 < maxTemp temps) && decide (maxTemp temps < 130) &&
      decide (40 < avgTemp temps))

/-- `(temp - 32) * 5 / 9`. -/
def toCelsius (f : ℚ) : ℚ := (f - 32) * 5 / 9

/-- The per-reading conversion applied by `getHistory`: convert when the
batch was classified Fahrenheit, otherwise apply the per-value second-pass
correction for readings in `[32,100]` when the batch max is in `(50,130)`. -/
def normalizeReading (likely : Bool) (maxT : ℚ) (t : ℚ) : ℚ :=
  if likely then toCelsius t
  else if 32 ≤ t ∧ t ≤ 100 ∧ 50 < maxT ∧ maxT < 130 then toCelsius t
  else t

/-- The whole-batch temperature normalization of `getHistory`. -/
def normalizeTemps (temps : List ℚ) : List ℚ :=
  temps.map (normalizeReading (likelyFahrenheit temps) (maxTemp temps))

example : likelyFahrenheit [68, 70, 72, 75, 80] = true := by
  norm_num [likelyFahrenheit, fahrenheitCount, avgTemp, maxTemp, minTemp, List.filter]
example : likelyFahrenheit [15, 18, 20, 22] = false := by
  norm_num [likelyFahrenheit, fahrenheitCount, avgTemp, maxTemp, minTemp, List.filter]
example : normalizeTemps [15, 18, 20, 22] = [15, 18, 20, 22] := by
  norm_num [normalizeTemps, normalizeReading, likelyFahrenheit, fahrenheitCount,
    avgTemp, maxTemp, minTemp, List.filter, toCelsius]

/-! ### Response cache (`getCache` / `setCache`) -/

/-- The in-memory store, one entry per key: the cached value and its
expiry instant (`exp`), as written by `setCache`. -/
def CacheStore (α : Type) := String → Option (α × ℤ)

/-- `getCache`: absent on a missing key; if the entry has expired
(`Date.now() > e.exp`) delete it and return absent; otherwise return the
value. Returns the possibly-updated store alongside the result. -/
def getCache {α : Type} (store : CacheStore α) (k : String) (now : ℤ) :
    Option α × CacheStore α :=
  match store k with
  | none => (none, store)
  | some e =>
    if e.2 < now then
      (none, fun k2 => if k2 = k then none else store k2)
    else
      (some e.1, store)

/-- `setCache`: record the value with expiry `Date.now() + ttlMs`. -/
def setCache {α : Type} (store : CacheStore α) (k : String) (v : α)
    (ttlMs : ℤ) (now : ℤ) : CacheStore α :=
  fun k2 => if k2 = k then some (v, now + ttlMs) else store k2

/-! ### JSON values and a model of `JSON.parse` -/

/-- A parsed JSON value; numbers are idealized as rationals. -/
inductive Json where
  | null : Json
  | bool : Bool → Json
  | num : ℚ → Json
  | str : String → Json
  | arr : List Json → Json
  | obj : List (String × Json) → Json
deriving Repr

/-- The opening curly brace character. -/
def lbrace : Char := Char.ofNat 123

/-- The closing curly brace character. -/
def rbrace : Char := Char.ofNat 125

/-- The single-quote character. -/
def squote : Char := Char.ofNat 39

/-- JSON insignificant whitespace (also the core of JavaScript `\s`). -/
def isJsonWs (c : Char) : Bool :=
  c = ' ' || c = '\t' || c = '\n' || c = '\r'

/-- Drop leading whitespace. -/
def skipWs : List Char → List Char
  | [] => []
  | c :: cs => if isJsonWs c then skipWs cs else c :: cs

/-- `String.prototype.trim`: drop leading and trailing whitespace. -/
def trimChars (cs : List Char) : List Char :=
  (skipWs (skipWs cs).reverse).reverse

/-- Value of a hexadecimal digit. -/
def hexVal (c : Char) : Option ℕ :=
  if '0' ≤ c ∧ c ≤ '9' then some (c.toNat - '0'.toNat)
  else if 'a' ≤ c ∧ c ≤ 'f' then some (c.toNat - 'a'.toNat + 10)
  else if 'A' ≤ c ∧ c ≤ 'F' then some (c.toNat - 'A'.toNat + 10)
  else none

/-- Single-character JSON string escapes. -/
def escChar : Char → Option Char
  | '"' => some '"'
  | '\\' => some '\\'
  | '/' => some '/'
  | 'b' => some (Char.ofNat 8)
  | 'f' => some (Char.ofNat 12)
  | 'n' => some '\n'
  | 'r' => some '\r'
  | 't' => some '\t'
  | _ => none

/-- Parse the body of a JSON string after the opening quote; returns the
decoded characters and the remainder after the closing quote. -/
def parseStrBody : List Char → Option (List Char × List Char)
  | [] => none
  | c :: cs =>
    if c = '"' then some ([], cs)
    else if c = '\\' then
      match cs with
      | [] => none
      | e :: cs2 =>
        if e = 'u' then
          match cs2 with
          | h1 :: h2 :: h3 :: h4 :: cs3 =>
            match hexVal h1, hexVal h2, hexVal h3, hexVal h4 with
            | some a, some b, some c2, some d =>
              match parseStrBody cs3 with
              | some (out, rest) =>
                some (Char.ofNat (((a * 16 + b) * 16 + c2) * 16 + d) :: out, rest)
              | none => none
            | _, _, _, _ => none
          | _ => none
        else
          match escChar e with
          | some ec =>
            match parseStrBody cs2 with
            | some (out, rest) => some (ec :: out, rest)
            | none => none
          | none => none
    else if c.toNat < 32 then none
    else
      match parseStrBody cs with
      | some (out, rest) => some (c :: out, rest)
      | none => none

/-- Digits to a natural number. -/
def digitsToNat (ds : List Char) : ℕ :=
  ds.foldl (fun n d => n * 10 + (d.toNat - '0'.toNat)) 0

/-- Assemble a JSON number from its parsed parts: sign, integer digits,
optional fraction digits, optional exponent. -/
def assembleNum (neg : Bool) (n : ℕ) (frac : Option (List Char))
    (ex : Option ℤ) : ℚ :=
  let base : ℚ :=
    match frac with
    | none => (n : ℚ)
    | some fs => (n : ℚ) + (digitsToNat fs : ℚ) / ((10 : ℚ) ^ fs.length)
  let scaled : ℚ :=
    match ex with
    | none => base
    | some e => base * (10 : ℚ) ^ e
  if neg then -scaled else scaled

/-- Parse the optional exponent part of a JSON number. -/
def parseExpPart (cs : List Char) : Option (Option ℤ × List Char) :=
  match cs with
  | c :: cs2 =>
    if c = 'e' ∨ c = 'E' then
      let (esign, cs3) :=
        match cs2 with
        | '+' :: r => ((1 : ℤ), r)
        | '-' :: r => ((-1 : ℤ), r)
        | _ => ((1 : ℤ), cs2)
      let (eds, cs4) := cs3.span (fun d => d.isDigit)
      if eds = [] then none
      else some (some (esign * (digitsToNat eds : ℤ)), cs4)
    else some (none, cs)
  | [] => some (none, cs)

/-- Parse a JSON number (strict grammar: optional minus, no leading zeros,
fraction and exponent each need at least one digit). -/
def parseNumberQ (cs : List Char) : Option (ℚ × List Char) :=
  let (neg, cs1) :=
    match cs with
    | '-' :: rest => (true, rest)
    | _ => (false, cs)
  let (ds, cs2) := cs1.span (fun d => d.isDigit)
  if ds = [] then none
  else if 1 < ds.length ∧ ds.headD '0' = '0' then none
  else
    match cs2 with
    | '.' :: cs3 =>
      let (fs, cs4) := cs3.span (fun d => d.isDigit)
      if fs = [] then none
      else
        match parseExpPart cs4 with
        | some (ex, cs5) => some (assembleNum neg (digitsToNat ds) (some fs) ex, cs5)
        | none => none
    | _ =>
      match parseExpPart cs2 with
      | some (ex, cs5) => some (assembleNum neg (digitsToNat ds) none ex, cs5)
      | none => none

mutual

/-- Parse one JSON value (fuel-indexed recursive descent). -/
def parseVal : ℕ → List Char → Option (Json × List Char)
  | 0, _ => none
  | fuel + 1, cs0 =>
    match skipWs cs0 with
    | [] => none
    | c :: rest =>
      if c = lbrace then
        match skipWs rest with
        | [] => none
        | c2 :: rest2 =>
          if c2 = rbrace then some (Json.obj [], rest2)
          else parseMembers fuel (c2 :: rest2) []
      else if c = '[' then
        match skipWs rest with
        | [] => none
        | c2 :: rest2 =>
          if c2 = ']' then some (Json.arr [], rest2)
          else parseElems fuel (c2 :: rest2) []
      else if c = '"' then
        match parseStrBody rest with
        | some (out, rest2) => some (Json.str (String.mk out), rest2)
        | none => none
      else if c = 't' then
        match rest with
        | 'r' :: 'u' :: 'e' :: rest2 => some (Json.bool true, rest2)
        | _ => none
      else if c = 'f' then
        match rest with
        | 'a' :: 'l' :: 's' :: 'e' :: rest2 => some (Json.bool false, rest2)
        | _ => none
      else if c = 'n' then
        match rest with
        | 'u' :: 'l' :: 'l' :: rest2 => some (Json.null, rest2)
        | _ => none
      else
        match parseNumberQ (c :: rest) with
        | some (q, rest2) => some (Json.num q, rest2)
        | none => none

/-- Parse the elements of a nonempty JSON array (after the opening
bracket). -/
def parseElems : ℕ → List Char → List Json → Option (Json × List Char)
  | 0, _, _ => none
  | fuel + 1, cs, acc =>
    match parseVal fuel cs with
    | none => none
    | some (v, cs2) =>
      match skipWs cs2 with
      | ',' :: cs3 => parseElems fuel cs3 (acc ++ [v])
      | c :: cs3 => if c = ']' then some (Json.arr (acc ++ [v]), cs3) else none
      | [] => none

/-- Parse the members of a nonempty JSON object (after the opening
brace). -/
def parseMembers : ℕ → List Char → List (String × Json) →
    Option (Json × List Char)
  | 0, _, _ => none
  | fuel + 1, cs, acc =>
    match skipWs cs with
    | '"' :: cs2 =>
      match parseStrBody cs2 with
      | none => none
      | some (key, cs3) =>
        match skipWs cs3 with
        | ':' :: cs4 =>
          match parseVal fuel cs4 with
          | none => none
          | some (v, cs5) =>
            match skipWs cs5 with
            | ',' :: cs6 => parseMembers fuel cs6 (acc ++ [(String.mk key, v)])
            | c :: cs6 =>
              if c = rbrace then some (Json.obj (acc ++ [(String.mk key, v)]), cs6)
              else none
            | [] => none
        | _ => none
    | _ => none

end

/-- Strict `JSON.parse` on a character list: a single value, with only
whitespace around it. -/
def jsonParseChars (cs : List Char) : Option Json :=
  match parseVal (cs.length + 1) cs with
  | some (v, rest) => if skipWs rest = [] then some v else none
  | none => none

/-- Strict `JSON.parse` on a string. -/
def jsonParse (s : String) : Option Json :=
  jsonParseChars s.toList

example : jsonParse "[1, 20]" = some (Json.arr [Json.num 1, Json.num 20]) := rfl
example : jsonParse "null" = some Json.null := rfl
example : jsonParse "\"a\"" = some (Json.str "a") := rfl

/-! ### Tolerant decoding (`rlFetch` JSON-repair chain) -/

/-- Does the pattern list lead the text list? -/
def startsWithChars : List Char → List Char → Bool
  | [], _ => true
  | _ :: _, [] => false
  | p :: ps, c :: cs => p = c && startsWithChars ps cs

/-- The literal `"points":` lead token (double-quoted). -/
def pointsKeyDq : List Char := ['"', 'p', 'o', 'i', 'n', 't', 's', '"', ':']

/-- The literal `points` lead token in single quotes followed by a colon. -/
def pointsKeySq : List Char := [squote, 'p', 'o', 'i', 'n', 't', 's', squote, ':']

/-- Build the repaired document: open brace, `"points": `, the payload,
close brace. -/
def wrapPoints (payload : List Char) : List Char :=
  [lbrace, '"', 'p', 'o', 'i', 'n', 't', 's', '"', ':', ' '] ++ payload ++ [rbrace]

/-- Repair 1: a body whose leading token is `"points":` or `'points':`
(exact match) is wrapped into an object; the payload is everything after
the first colon, trimmed. -/
def repairLeadColon (trimmed : List Char) : Option Json :=
  if startsWithChars pointsKeyDq trimmed || startsWithChars pointsKeySq trimmed then
    match trimmed.findIdx? (fun c => c = ':') with
    | some i => jsonParseChars (wrapPoints (trimChars (trimmed.drop (i + 1))))
    | none => none
  else none

/-- Consume one optional quote character (double or single). -/
def dropOptQuote (cs : List Char) : List Char :=
  match cs with
  | c :: rest => if c = '"' ∨ c = squote then rest else cs
  | [] => cs

/-- Match the lead pattern: optional quote, `points` case-insensitively,
optional quote, whitespace, colon; returns the remainder after the match. -/
def pointsPatternRest (cs : List Char) : Option (List Char) :=
  match dropOptQuote cs with
  | p0 :: p1 :: p2 :: p3 :: p4 :: p5 :: cs2 =>
    if p0.toLower = 'p' && p1.toLower = 'o' && p2.toLower = 'i' &&
        p3.toLower = 'n' && p4.toLower = 't' && p5.toLower = 's' then
      match skipWs (dropOptQuote cs2) with
      | ':' :: rest => some rest
      | _ => none
    else none
  | _ => none

/-- Repair 2: the more flexible lead-pattern check; on a match, wrap the
trimmed remainder in an object. -/
def repairLeadPattern (trimmed : List Char) : Option Json :=
  match pointsPatternRest trimmed with
  | some rest => jsonParseChars (wrapPoints (trimChars rest))
  | none => none

/-- Repair 3: a body that starts with `[` is wrapped as an object with a
`points` member. -/
def repairBareArray (trimmed : List Char) : Option Json :=
  if startsWithChars ['['] trimmed then jsonParseChars (wrapPoints trimmed)
  else none

/-- Locate the first occurrence of `"points"`, whitespace, colon,
whitespace, `[`; returns the suffix starting at the `[`. -/
def findPointsArr : List Char → Option (List Char)
  | [] => none
  | c :: cs =>
    let attempt :=
      if startsWithChars ['"', 'p', 'o', 'i', 'n', 't', 's', '"'] (c :: cs) then
        match skipWs ((c :: cs).drop 8) with
        | ':' :: cs3 =>
          match skipWs cs3 with
          | '[' :: cs4 => some ('[' :: cs4)
          | _ => none
        | _ => none
      else none
    match attempt with
    | some suffix => some suffix
    | none => findPointsArr cs

/-- Scan from an opening bracket, counting bracket depth, until it returns
to zero; yields the length of the balanced span. -/
def bracketScan : List Char → ℤ → ℕ → Option ℕ
  | [], _, _ => none
  | c :: cs, depth, consumed =>
    let depth2 : ℤ :=
      if c = '[' then depth + 1 else if c = ']' then depth - 1 else depth
    if depth2 = 0 then some (consumed + 1)
    else bracketScan cs depth2 (consumed + 1)

/-- Repair 4: extract an embedded `"points": [...]` span by balanced-bracket
matching and wrap it. -/
def repairEmbedded (trimmed : List Char) : Option Json :=
  match findPointsArr trimmed with
  | some suffix =>
    match bracketScan suffix 0 0 with
    | some len => jsonParseChars (wrapPoints (suffix.take len))
    | none => none
  | none => none

/-- The response decoding of `rlFetch`: reject an effectively empty body,
try strict `JSON.parse`, then the four structural repairs in order, and
surface a parse error only when everything fails. -/
def rlDecode (text : String) : Except String Json :=
  let cs := text.toList
  if (trimChars cs).length = 0 then .error "Empty response from WindBorne API"
  else
    match jsonParseChars cs with
    | some v => .ok v
    | none =>
      let trimmed := trimChars cs
      match repairLeadColon trimmed with
      | some v => .ok v
      | none =>
        match repairLeadPattern trimmed with
        | some v => .ok v
        | none =>
          match repairBareArray trimmed with
          | some v => .ok v
          | none =>
            match repairEmbedded trimmed with
            | some v => .ok v
            | none => .error "Invalid JSON response from WindBorne API"

example :
    rlDecode "\"points\": [\x7b\"timestamp\":\"2024-01-01T00:00:00Z\",\"temperature\":20\x7d]" =
      .ok (Json.obj [("points", Json.arr [Json.obj
        [("timestamp", Json.str "2024-01-01T00:00:00Z"), ("temperature", Json.num 20)]])]) := rfl

/-! ### Upstream fetch, history endpoint, and the weather route -/

/-- `res.ok`: HTTP status in the 2xx range (the fetch API uses 200-299). -/
def httpOk (status : ℕ) : Bool := 200 ≤ status && status ≤ 299

/-- The observable outcome of `rlFetch`: a thrown error for a non-2xx
status, otherwise the tolerant decoding of the body. -/
def rlFetchModel (status : ℕ) (body : String) : Except String Json :=
  if !httpOk status then .error ("WindBorne " ++ toString status)
  else rlDecode body

/-- Field lookup on a JSON object (first match, as in JavaScript). -/
def Json.getField (j : Json) (k : String) : Option Json :=
  match j with
  | .obj fields => (fields.find? (fun f => f.1 = k)).map (fun f => f.2)
  | _ => none

/-- `getHistory`: the outcome of one upstream call is either an error —
caught, logged, and turned into an empty list — or a decoded value whose
observation array is the value itself (bare array), or its `points` member,
or nothing; the retained array is then fed to the temperature-processing
pipeline (abstracted here as `process`). The function never throws: every
failure degrades to an empty list. -/
def getHistoryModel (process : List Json → List Json)
    (status : ℕ) (body : String) : Except String (List Json) :=
  match rlFetchModel status body with
  | .error _ => .ok []
  | .ok response =>
    match response with
    | .arr xs => .ok (process xs)
    | _ =>
      match response.getField "points" with
      | some (.arr xs) => .ok (process xs)
      | _ => .ok []

/-- The body of an HTTP response from the weather route: either an error
object or a JSON list of observations. -/
inductive RespBody where
  | errBody : String → RespBody
  | listBody : List Json → RespBody
deriving Repr

/-- An HTTP response: status code and body. -/
structure HttpResp where
  status : ℕ
  body : RespBody
deriving Repr

/-- `GET /weather?station=...`: 400 without a station id; a cache hit is
served from the cache; otherwise the history is fetched, cached, and
returned with status 200, and only a thrown error yields a 500 with an
error body. -/
def weatherGET (process : List Json → List Json)
    (idOpt : Option String) (cache : CacheStore (List Json)) (now : ℤ)
    (status : ℕ) (body : String) : HttpResp :=
  match idOpt with
  | none => ⟨400, .errBody "station required"⟩
  | some id =>
    let key := "wx:" ++ id
    match (getCache cache key now).1 with
    | some c => ⟨200, .listBody c⟩
    | none =>
      match getHistoryModel process status body with
      | .ok h => ⟨200, .listBody h⟩
      | .error e => ⟨500, .errBody e⟩

/-! ### Flight search response normalization (`SerpApiFlightProvider.search`) -/

/-- Keep only digits and periods (`replace(/[^0-9.]/g, "")`). -/
def stripNonNumeric (s : String) : List Char :=
  s.toList.filter (fun c => c.isDigit || c = '.')

/-- JavaScript `parseFloat` on a digits-and-periods string: longest numeric
prefix, or NaN (`none`) when there is none. -/
def jsParseFloat (cs : List Char) : Option ℚ :=
  let (ds, cs2) := cs.span (fun d => d.isDigit)
  match cs2 with
  | '.' :: cs3 =>
    let (fs, _) := cs3.span (fun d => d.isDigit)
    if ds = [] ∧ fs = [] then none
    else if fs = [] then some (digitsToNat ds : ℚ)
    else some ((digitsToNat ds : ℚ) + (digitsToNat fs : ℚ) / ((10 : ℚ) ^ fs.length))
  | _ => if ds = [] then none else some (digitsToNat ds : ℚ)

/-- `extractPrice`: a number is returned as-is; a string is stripped of
non-numeric characters and parsed, kept only when finite; an object
contributes its numeric `value` or `price` member; anything else is null. -/
def extractPrice (priceObj : Option Json) : Option ℚ :=
  match priceObj with
  | some (.num q) => some q
  | some (.str s) => jsParseFloat (stripNonNumeric s)
  | some (.obj fields) =>
    match (Json.obj fields).getField "value" with
    | some (.num q) => some q
    | _ =>
      match (Json.obj fields).getField "price" with
      | some (.num q) => some q
      | _ => none
  | _ => none

/-- A normalized flight offer: the extracted price, plus the raw provider
object the remaining fields (airline, duration, times, stops, link) are
copied from. -/
structure FlightPrice where
  price : ℚ
  raw : Json

/-- Process one provider list: extract each offer's price and keep the
offer only when the price is truthy (`if (price)`): present and nonzero. -/
def retainOffers (offers : List Json) : List FlightPrice :=
  offers.filterMap (fun o =>
    match extractPrice (o.getField "price") with
    | some p => if p = 0 then none else some ⟨p, o⟩
    | none => none)

/-- The running-minimum fold that computes `cheapest`: the accumulator is
replaced only on a strictly smaller price. -/
def foldCheapest (c : FlightPrice) (l : List FlightPrice) : FlightPrice :=
  l.foldl (fun acc x => if x.price < acc.price then x else acc) c

/-- `cheapest` over the merged retained list, in iteration order. -/
def chooseCheapest : List FlightPrice → Option FlightPrice
  | [] => none
  | x :: xs => some (foldCheapest x xs)

/-- Ascending-by-price ordering used by `flights.sort((a, b) => a.price - b.price)`. -/
def byPrice (a b : FlightPrice) : Prop := a.price ≤ b.price

instance : DecidableRel byPrice := fun a b => inferInstanceAs (Decidable (a.price ≤ b.price))

instance : IsTotal FlightPrice byPrice := ⟨fun a b => le_total a.price b.price⟩

instance : IsTrans FlightPrice byPrice := ⟨fun _ _ _ h1 h2 => le_trans h1 h2⟩

/-- `SerpApiFlightProvider.search` response normalization: retain priced
offers from `best_flights` then `other_flights`; when both yield nothing,
fall back to a bare `flights` list; `cheapest` is the running minimum in
that order, and the returned list is sorted ascending by price. -/
def serpSearch (bestFlights otherFlights flightsAlt : List Json) :
    Option FlightPrice × List FlightPrice :=
  let merged0 := retainOffers bestFlights ++ retainOffers otherFlights
  let merged := if merged0.length = 0 then retainOffers flightsAlt else merged0
  (chooseCheapest merged, List.insertionSort byPrice merged)

/-! ### Helper lemmas on finite JSNum arithmetic -/

theorem jle_fin (a b : ℚ) : jle (fin a) (fin b) = decide (a ≤ b) := rfl

theorem jlt_fin (a b : ℚ) : jlt (fin a) (fin b) = decide (a < b) := rfl

theorem jeq_fin (a b : ℚ) : jeq (fin a) (fin b) = (a == b) := rfl

theorem jadd_fin (a b : ℚ) : jadd (fin a) (fin b) = fin (a + b) := rfl

theorem jsub_fin (a b : ℚ) : jsub (fin a) (fin b) = fin (a - b) := by
  simp [jsub, jadd, jneg, sub_eq_add_neg]

theorem jmul_fin (a b : ℚ) : jmul (fin a) (fin b) = fin (a * b) := rfl

theorem jdiv_fin (a b : ℚ) (hb : b ≠ 0) : jdiv (fin a) (fin b) = fin (a / b) := by
  simp [jdiv, hb]

theorem jmin_fin (a b : ℚ) : jmin (fin a) (fin b) = fin (min a b) := by
  simp only [jmin, jlt_fin]
  rcases lt_or_le b a with h | h
  · simp [h, min_eq_right h.le]
  · simp [not_lt.mpr h, min_eq_left h]

theorem jmax_fin (a b : ℚ) : jmax (fin a) (fin b) = fin (max a b) := by
  simp only [jmax, jlt_fin]
  rcases lt_or_le a b with h | h
  · simp [h, max_eq_right h.le]
  · simp [not_lt.mpr h, max_eq_left h]

theorem jmul_comm (a b : JSNum) : jmul a b = jmul b a := by
  cases a <;> cases b <;> simp [jmul, mul_comm]

/-- Claim C1: the composite score equals 0.4 times the price sub-score plus
0.3 times the temperature sub-score plus 0.3 times the duration sub-score of
the same inputs, and the composite (like each sub-score) is a deterministic
pure function: two calls with identical inputs give identical outputs. -/
theorem claim1_composite_formula :
    (∀ temp price pref budget durMin shortestMin,
      composite temp price pref budget durMin shortestMin =
        jadd (jadd (jmul (fin (4/10)) (priceScore price budget))
            (jmul (fin (3/10)) (weatherScore temp pref)))
          (jmul (fin (3/10)) (durationScore durMin shortestMin))) ∧
    (∀ t1 p1 pr1 b1 d1 s1 t2 p2 pr2 b2 d2 s2,
      t1 = t2 → p1 = p2 → pr1 = pr2 → b1 = b2 → d1 = d2 → s1 = s2 →
      composite t1 p1 pr1 b1 d1 s1 = composite t2 p2 pr2 b2 d2 s2) := by
  constructor
  · intro temp price pref budget durMin shortestMin
    simp only [composite]
    rw [jmul_comm (priceScore price budget), jmul_comm (weatherScore temp pref),
      jmul_comm (durationScore durMin shortestMin)]
  · intro t1 p1 pr1 b1 d1 s1 t2 p2 pr2 b2 d2 s2 h1 h2 h3 h4 h5 h6
    subst h1; subst h2; subst h3; subst h4; subst h5; subst h6; rfl

/-- Witness for C1 at concrete inputs. -/
theorem claim1_composite_formula_witness :
    composite (fin 20) (fin 180) ⟨fin 15, fin 30⟩ (fin 200) (fin 90) (fin 90) =
      composite (fin 20) (fin 180) ⟨fin 15, fin 30⟩ (fin 200) (fin 90) (fin 90) :=
  claim1_composite_formula.2 _ _ _ _ _ _ _ _ _ _ _ _ rfl rfl rfl rfl rfl rfl

/-- Claim C9: immediately after `set(k, v, ttl)` a `get(k)` returns `v`;
once the current time exceeds the set time plus the TTL, `get(k)` returns
absent and removes the entry (lazy expiry at read time), so later reads
stay absent until a fresh set. -/
theorem claim9_cache_ttl {α : Type} (store : CacheStore α) (k : String)
    (v : α) (ttl s now : ℤ) (httl : 0 ≤ ttl) (hexp : s + ttl < now) :
    (getCache (setCache store k v ttl s) k s).1 = some v ∧
    (getCache (setCache store k v ttl s) k now).1 = none ∧
    (getCache (setCache store k v ttl s) k now).2 k = none ∧
    (∀ t2 : ℤ, (getCache ((getCache (setCache store k v ttl s) k now).2) k t2).1 = none) := by
  have hs : ¬ (s + ttl < s) := by omega
  refine ⟨?_, ?_, ?_, ?_⟩
  · simp [getCache, setCache, hs]
  · simp [getCache, setCache, hexp]
  · simp [getCache, setCache, hexp]
  · intro t2
    simp [getCache, setCache, hexp]

/-- Witness for C9: key set at time 0 with TTL 1000, read at 0 and at 1001. -/
theorem claim9_cache_ttl_witness :
    (getCache (setCache (fun _ => none) "k" (37 : ℕ) 1000 0) "k" 0).1 = some 37 ∧
    (getCache (setCache (fun _ => none) "k" (37 : ℕ) 1000 0) "k" 1001).1 = none ∧
    (getCache (setCache (fun _ => none) "k" (37 : ℕ) 1000 0) "k" 1001).2 "k" = none ∧
    (∀ t2 : ℤ, (getCache ((getCache (setCache (fun _ => none) "k" (37 : ℕ) 1000 0) "k" 1001).2)
      "k" t2).1 = none) :=
  claim9_cache_ttl (fun _ => none) "k" 37 1000 0 1001 (by norm_num) (by norm_num)

/-- Claim C10: for every finite preference band, the temperature sub-score
of a NaN temperature is 100 (no penalty accrues because NaN fails both
out-of-band comparisons), unlike the price and duration sub-scores, which
map a NaN operand to 0. -/
theorem claim10_weather_nan (mn mx : ℚ) :
    weatherScore nan ⟨fin mn, fin mx⟩ = fin 100 ∧
    (∀ b : JSNum, priceScore nan b = fin 0) ∧
    (∀ p : JSNum, priceScore p nan = fin 0) ∧
    (∀ s : JSNum, durationScore nan s = fin 0) ∧
    (∀ d : JSNum, durationScore d nan = fin 0) := by
  have hR : (0 : ℚ) < max (mx - mn) 5 := lt_of_lt_of_le (by norm_num) (le_max_right _ _)
  refine ⟨?_, ?_, ?_, ?_, ?_⟩
  · simp only [weatherScore, jle, jlt, Bool.false_and, Bool.and_false, if_neg,
      Bool.false_eq_true, not_false_iff]
    rw [jsub_fin, jmax_fin, jdiv_fin _ _ (ne_of_gt hR), jmul_fin, jmin_fin, jsub_fin, jmax_fin]
    norm_num
  · intro b
    simp [priceScore, isFinite]
  · intro p
    cases p with
    | nan => simp [priceScore, isFinite]
    | posInf => simp [priceScore, isFinite]
    | negInf => simp [priceScore, isFinite]
    | fin q =>
      rcases le_or_lt q 0 with h | h
      · simp [priceScore, isFinite, jle, h]
      · simp [priceScore, isFinite, jle, not_le.mpr h]
  · intro s
    simp [durationScore, isFinite]
  · intro d
    cases d with
    | nan => simp [durationScore, isFinite]
    | posInf => simp [durationScore, isFinite]
    | negInf => simp [durationScore, isFinite]
    | fin q =>
      rcases le_or_lt q 0 with h | h
      · simp [durationScore, isFinite, jle, h]
      · simp [durationScore, isFinite, jle, not_le.mpr h]

/-- Counterexample to C4: with an empty cache, a non-2xx upstream status
(here 404) for station "X" yields HTTP 200 with an empty observation list,
not HTTP 500 with an error body: `getHistory` swallows the upstream error
and returns an empty array. -/
theorem claim4_counterexample :
    httpOk 404 = false ∧
    (weatherGET (fun xs => xs) (some "X") (fun _ => none) 0 404 "") =
      ⟨200, RespBody.listBody []⟩ ∧
    (weatherGET (fun xs => xs) (some "X") (fun _ => none) 0 404 "").status ≠ 500 := by
  refine ⟨rfl, rfl, ?_⟩
  intro h
  simp [weatherGET, getCache, getHistoryModel, rlFetchModel, httpOk] at h

/-- Claim C4 (amended): when the upstream weather provider returns a
non-2xx status for a station's history and the cache has no entry for that
station, the endpoint responds HTTP 200 with an empty JSON array — the
error is caught inside `getHistory` and degraded to an empty list, so the
route's 500 error branch is not taken. -/
theorem claim4_amended (process : List Json → List Json) (id : String)
    (cache : CacheStore (List Json)) (now : ℤ) (status : ℕ) (body : String)
    (hstatus : httpOk status = false)
    (hmiss : (getCache cache ("wx:" ++ id) now).1 = none) :
    weatherGET process (some id) cache now status body = ⟨200, RespBody.listBody []⟩ := by
  simp [weatherGET, hmiss, getHistoryModel, rlFetchModel, hstatus]

/-- Witness for the amended C4 at a concrete non-2xx status and empty cache. -/
theorem claim4_amended_witness :
    weatherGET (fun xs => xs) (some "X") (fun _ => none) 0 503 "" =
      ⟨200, RespBody.listBody []⟩ :=
  claim4_amended (fun xs => xs) "X" (fun _ => none) 0 503 "" rfl rfl

/-! ### Rate limiter trace lemmas -/

theorem filter_replicate_int (n : ℕ) (a : ℤ) (p : ℤ → Bool) :
    (List.replicate n a).filter p = if p a then List.replicate n a else [] := by
  induction n with
  | zero => simp
  | succ n ih =>
    rw [List.replicate_succ, List.filter_cons, ih]
    by_cases h : p a <;> simp [h, List.replicate_succ]

theorem pruneStamps_shift (s now : ℤ) (stamps : List ℤ) :
    pruneStamps (now + s) (stamps.map (fun t => t + s)) =
      (pruneStamps now stamps).map (fun t => t + s) := by
  unfold pruneStamps
  have hp : ((fun t => decide (now + s - t < windowMs)) ∘ fun t => t + s) =
      (fun t => decide (now - t < windowMs)) := by
    funext t
    simp only [Function.comp_apply]
    have harith : now + s - (t + s) = now - t := by ring
    rw [harith]
  rw [List.filter_map, hp]

theorem rlAdmit_shift (s now : ℤ) (stamps : List ℤ) :
    rlAdmit (now + s) (stamps.map (fun t => t + s)) =
      ((rlAdmit now stamps).1 + s, (rlAdmit now stamps).2.map (fun t => t + s)) := by
  unfold rlAdmit
  rw [pruneStamps_shift]
  by_cases h : limitCount ≤ (pruneStamps now stamps).length
  · have hlen : limitCount ≤ ((pruneStamps now stamps).map (fun t => t + s)).length := by
      simpa using h
    rw [if_pos hlen, if_pos h]
    have hne : pruneStamps now stamps ≠ [] := by
      intro hnil
      rw [hnil] at h
      simp [limitCount] at h
    have hhead : ((pruneStamps now stamps).map (fun t => t + s)).headD 0 =
        (pruneStamps now stamps).headD 0 + s := by
      cases hp : pruneStamps now stamps with
      | nil => exact absurd hp hne
      | cons a l => simp
    rw [hhead]
    simp only [Prod.mk.injEq]
    constructor
    · ring
    · rw [List.map_append]
      congr 1
      simp only [List.map_cons, List.map_nil]
      congr 1
      ring
  · have hlen : ¬ limitCount ≤ ((pruneStamps now stamps).map (fun t => t + s)).length := by
      simpa using h
    rw [if_neg hlen, if_neg h]
    simp [List.map_append]

theorem runCalls_shift (s : ℤ) : ∀ (n : ℕ) (now : ℤ) (stamps : List ℤ),
    runCalls n (now + s) (stamps.map (fun t => t + s)) =
      (runCalls n now stamps).map (fun t => t + s) := by
  intro n
  induction n with
  | zero => intro now stamps; rfl
  | succ n ih =>
    intro now stamps
    simp only [runCalls]
    rw [rlAdmit_shift]
    simp only [List.map_cons]
    rw [ih]

theorem runCalls_trace (t0 : ℤ) :
    runCalls 25 t0 [] = List.replicate 20 t0 ++ List.replicate 5 (t0 + windowMs) := by
  have h0 : runCalls 25 0 [] = List.replicate 20 0 ++ List.replicate 5 60000 := by decide
  have hshift := runCalls_shift t0 25 0 []
  rw [zero_add] at hshift
  rw [show ([] : List ℤ) = ([] : List ℤ).map (fun t => t + t0) from rfl, hshift, h0,
    List.map_append, List.map_replicate, List.map_replicate]
  norm_num [windowMs, add_comm]

/-- Claim C2: for the rate-limited fetcher with a 60s window and a cap of
20: the wait imposed when the pruned window is full is exactly
`windowMs - (now - oldestRetainedTimestamp)`; a back-to-back sequence of
25 calls starting at any time admits the first 20 immediately and calls
21-25 only a full window after the first call — the instant the oldest of
the first 20 timestamps leaves the window — and no rolling 60-second
interval contains more than 20 admitted calls. -/
theorem claim2_rate_limiter :
    (∀ (now : ℤ) (stamps : List ℤ), limitCount ≤ (pruneStamps now stamps).length →
      (rlAdmit now stamps).1 = now + (windowMs - (now - (pruneStamps now stamps).headD 0))) ∧
    (∀ t0 : ℤ, runCalls 25 t0 [] =
      List.replicate 20 t0 ++ List.replicate 5 (t0 + windowMs)) ∧
    (∀ t0 : ℤ, (runCalls 25 t0 []).drop 20 =
      List.replicate 5 ((runCalls 25 t0 []).headD 0 + windowMs)) ∧
    (∀ t0 x : ℤ, ((runCalls 25 t0 []).filter
      (fun t => decide (x ≤ t) && decide (t < x + windowMs))).length ≤ 20) := by
  refine ⟨?_, runCalls_trace, ?_, ?_⟩
  · intro now stamps h
    simp [rlAdmit, h]
  · intro t0
    rw [runCalls_trace]
    rfl
  · intro t0 x
    rw [runCalls_trace, List.filter_append, filter_replicate_int, filter_replicate_int]
    simp only [windowMs]
    by_cases hx1 : x ≤ t0 <;> by_cases hx2 : t0 < x + 60000 <;>
      by_cases hy1 : x ≤ t0 + 60000 <;> by_cases hy2 : t0 + 60000 < x + 60000 <;>
        simp [hx1, hx2, hy1, hy2] <;> omega

/-- Witness for C2: the wait formula fires on a concrete full window. -/
theorem claim2_rate_limiter_witness :
    (rlAdmit 10 (List.replicate 20 0)).1 =
      10 + (windowMs - (10 - (pruneStamps 10 (List.replicate 20 0)).headD 0)) :=
  claim2_rate_limiter.1 10 (List.replicate 20 0) (by decide)

/-! ### Unit-normalizer lemmas -/

theorem foldl_max_le_iff (ts : List ℚ) (a b : ℚ) :
    ts.foldl max a ≤ b ↔ a ≤ b ∧ ∀ t ∈ ts, t ≤ b := by
  induction ts generalizing a with
  | nil => simp
  | cons t ts ih =>
    simp only [List.foldl_cons, ih, max_le_iff, List.mem_cons]
    constructor
    · rintro ⟨⟨h1, h2⟩, h3⟩
      exact ⟨h1, fun x hx => by rcases hx with rfl | hx; exact h2; exact h3 x hx⟩
    · rintro ⟨h1, h2⟩
      exact ⟨⟨h1, h2 t (Or.inl rfl)⟩, fun x hx => h2 x (Or.inr hx)⟩

theorem le_foldl_min_iff (ts : List ℚ) (a b : ℚ) :
    b ≤ ts.foldl min a ↔ b ≤ a ∧ ∀ t ∈ ts, b ≤ t := by
  induction ts generalizing a with
  | nil => simp
  | cons t ts ih =>
    simp only [List.foldl_cons, ih, le_min_iff, List.mem_cons]
    constructor
    · rintro ⟨⟨h1, h2⟩, h3⟩
      exact ⟨h1, fun x hx => by rcases hx with rfl | hx; exact h2; exact h3 x hx⟩
    · rintro ⟨h1, h2⟩
      exact ⟨⟨h1, h2 t (Or.inl rfl)⟩, fun x hx => h2 x (Or.inr hx)⟩

set_option maxHeartbeats 1000000 in
theorem likelyFahrenheit_batch1 : likelyFahrenheit [68, 70, 72, 75, 80] = true := by
  norm_num [likelyFahrenheit, fahrenheitCount, avgTemp, maxTemp, minTemp, List.filter]

set_option maxHeartbeats 1000000 in
theorem normalizeTemps_batch1 :
    normalizeTemps [68, 70, 72, 75, 80] = [20, 190/9, 200/9, 215/9, 240/9] := by
  rw [normalizeTemps, likelyFahrenheit_batch1]
  norm_num [normalizeReading, toCelsius]

set_option maxHeartbeats 1000000 in
theorem likelyFahrenheit_batch2 : likelyFahrenheit [15, 18, 20, 22] = false := by
  norm_num [likelyFahrenheit, fahrenheitCount, avgTemp, maxTemp, minTemp, List.filter]

set_option maxHeartbeats 1000000 in
theorem normalizeTemps_batch2 : normalizeTemps [15, 18, 20, 22] = [15, 18, 20, 22] := by
  rw [normalizeTemps, likelyFahrenheit_batch2]
  norm_num [normalizeReading, maxTemp, toCelsius]

set_option maxHeartbeats 1000000 in
/-- Claim C3: the batch is classified Fahrenheit exactly when the fraction
of readings in `[32,100]` exceeds 0.7, or the average is in `[32,100]` with
max below 130, or all readings are in `[32,100]` with more than 5 readings,
or the max is in `(50,130)` with average above 40; a Fahrenheit-classified
batch converts every reading by `(f - 32) * 5 / 9`; the batch
`[68,70,72,75,80]` is classified Fahrenheit with 70 mapping within 0.01 of
21.11, and `[15,18,20,22]` is classified Celsius and left unchanged. -/
theorem claim3_unit_normalizer (temps : List ℚ) (hne : temps ≠ []) :
    (likelyFahrenheit temps = true ↔
      (7/10 < (fahrenheitCount temps : ℚ) / (temps.length : ℚ) ∨
       (32 ≤ avgTemp temps ∧ avgTemp temps ≤ 100 ∧ maxTemp temps < 130) ∨
       ((∀ t ∈ temps, 32 ≤ t ∧ t ≤ 100) ∧ 5 < temps.length) ∨
       (50 < maxTemp temps ∧ maxTemp temps < 130 ∧ 40 < avgTemp temps))) ∧
    (likelyFahrenheit temps = true → normalizeTemps temps = temps.map toCelsius) ∧
    likelyFahrenheit [68, 70, 72, 75, 80] = true ∧
    normalizeTemps [68, 70, 72, 75, 80] = [20, 190/9, 200/9, 215/9, 240/9] ∧
    |190/9 - (2111/100 : ℚ)| < 1/100 ∧
    likelyFahrenheit [15, 18, 20, 22] = false ∧
    normalizeTemps [15, 18, 20, 22] = [15, 18, 20, 22] := by
  refine ⟨?_, ?_, likelyFahrenheit_batch1, normalizeTemps_batch1,
    by rw [abs_lt]; constructor <;> norm_num,
    likelyFahrenheit_batch2, normalizeTemps_batch2⟩
  · cases temps with
    | nil => exact absurd rfl hne
    | cons t ts =>
      have hmin : (32 : ℚ) ≤ minTemp (t :: ts) ↔ ∀ x ∈ t :: ts, 32 ≤ x := by
        simp only [minTemp, le_foldl_min_iff, List.mem_cons]
        constructor
        · rintro ⟨h1, h2⟩ x hx
          rcases hx with rfl | hx
          · exact h1
          · exact h2 x hx
        · intro h
          exact ⟨h t (Or.inl rfl), fun x hx => h x (Or.inr hx)⟩
      have hmax : maxTemp (t :: ts) ≤ (100 : ℚ) ↔ ∀ x ∈ t :: ts, x ≤ 100 := by
        simp only [maxTemp, foldl_max_le_iff, List.mem_cons]
        constructor
        · rintro ⟨h1, h2⟩ x hx
          rcases hx with rfl | hx
          · exact h1
          · exact h2 x hx
        · intro h
          exact ⟨h t (Or.inl rfl), fun x hx => h x (Or.inr hx)⟩
      have hsplit : (∀ x ∈ t :: ts, (32 : ℚ) ≤ x ∧ x ≤ 100) ↔
          ((∀ x ∈ t :: ts, (32 : ℚ) ≤ x) ∧ ∀ x ∈ t :: ts, x ≤ 100) := by
        constructor
        · intro h
          exact ⟨fun x hx => (h x hx).1, fun x hx => (h x hx).2⟩
        · rintro ⟨h1, h2⟩ x hx
          exact ⟨h1 x hx, h2 x hx⟩
      simp only [likelyFahrenheit, Bool.or_eq_true, Bool.and_eq_true, decide_eq_true_eq,
        hsplit, ← hmin, ← hmax, and_assoc, or_assoc]
  · intro h
    simp [normalizeTemps, h, normalizeReading]

/-- Witness for C3 at the Fahrenheit batch from the spec. -/
theorem claim3_unit_normalizer_witness :
    likelyFahrenheit [68, 70, 72, 75, 80] = true ∧
    normalizeTemps [68, 70, 72, 75, 80] = [68, 70, 72, 75, 80].map toCelsius :=
  ⟨(claim3_unit_normalizer [68, 70, 72, 75, 80] (by simp)).2.2.1,
   (claim3_unit_normalizer [68, 70, 72, 75, 80] (by simp)).2.1
     ((claim3_unit_normalizer [68, 70, 72, 75, 80] (by simp)).2.2.1)⟩

/-! ### Price-score characterization on finite inputs -/

theorem toQ_fin (a : ℚ) : (fin a).toQ = a := rfl

/-- The below-budget branch of `priceScore` as a rational function of the
ratio `price / budget`. -/
def belowQ (r : ℚ) : ℚ :=
  if 8/10 ≤ r then 95 + (r - 8/10) * 25
  else if 1/2 ≤ r then 85 + (r - 1/2) * (3333/100)
  else 70 + (r / (1/2)) * 15

/-- The above-budget branch of `priceScore` as a rational function of the
overage ratio `price / budget - 1`. -/
def aboveQ (r : ℚ) : ℚ :=
  max 5 (100 - (if 1/2 < r then min (50 + (r - 1/2) * 90) 95 else min (r * 100) 95))

theorem priceScore_at_budget (b : ℚ) (hb : 0 < b) :
    priceScore (fin b) (fin b) = fin 100 := by
  have hble : ¬ b ≤ 0 := not_le.mpr hb
  simp [priceScore, isFinite, jle_fin, jeq_fin, hble]

theorem priceScore_below (p b : ℚ) (hp : 0 < p) (h : p < b) :
    priceScore (fin p) (fin b) = fin (belowQ (p / b)) := by
  have hb : (0 : ℚ) < b := hp.trans h
  have hple : ¬ p ≤ 0 := not_le.mpr hp
  have hble : ¬ b ≤ 0 := not_le.mpr hb
  have hbne : b ≠ 0 := ne_of_gt hb
  have hhalf : ((1 : ℚ)/2) ≠ 0 := by norm_num
  simp only [priceScore, belowQ, isFinite, Bool.not_true, Bool.false_or, jle_fin, jeq_fin,
    beq_iff_eq, decide_eq_true_eq, jdiv_fin _ _ hbne, jdiv_fin _ _ hhalf,
    jsub_fin, jadd_fin, jmul_fin]
  simp [hple, hble, h.le, h.ne]
  split_ifs <;> rfl

theorem priceScore_above (p b : ℚ) (hb : 0 < b) (h : b < p) :
    priceScore (fin p) (fin b) = fin (aboveQ (p / b - 1)) := by
  have hp : (0 : ℚ) < p := hb.trans h
  have hple : ¬ p ≤ 0 := not_le.mpr hp
  have hble : ¬ b ≤ 0 := not_le.mpr hb
  have hbne : b ≠ 0 := ne_of_gt hb
  have hnle : ¬ p ≤ b := not_le.mpr h
  simp only [priceScore, aboveQ, isFinite, Bool.not_true, Bool.false_or, jle_fin, jeq_fin,
    jlt_fin, beq_iff_eq, decide_eq_true_eq, jdiv_fin _ _ hbne, jsub_fin, jadd_fin, jmul_fin,
    jmin_fin, jmax_fin]
  simp [hple, hble, hnle]
  split_ifs <;> rw [jsub_fin, jmax_fin]

theorem belowQ_bounds (r : ℚ) (h0 : 0 < r) (h1 : r < 1) :
    70 < belowQ r ∧ belowQ r < 100 := by
  unfold belowQ
  split_ifs <;> constructor <;> linarith

theorem belowQ_strictMono (r1 r2 : ℚ) (h : r1 < r2) : belowQ r1 < belowQ r2 := by
  unfold belowQ
  split_ifs <;> linarith

theorem aboveQ_claim_form (r : ℚ) :
    aboveQ r = max 5 (100 - (if r ≤ 1/2 then r * 100 else min (50 + (r - 1/2) * 90) 95)) := by
  unfold aboveQ
  rcases le_or_lt r (1/2) with h | h
  · rw [if_neg (not_lt.mpr h), if_pos h, min_eq_left (by linarith)]
  · rw [if_pos h, if_neg (not_le.mpr h)]

/-- Claim C5: the price sub-score is 100 at the budget; for a finite
positive price strictly below a finite positive budget the score is in
`[70,100]` and strictly increases as the price approaches the budget; above
the budget with overage ratio `r = (price - budget)/budget` the penalty is
`r*100` for `r ≤ 1/2` and `min (50 + (r - 1/2)*90) 95` beyond, so the score
never drops below 5; non-finite or non-positive price or budget scores 0;
and doubling the budget scores strictly below a 10% overage. -/
theorem claim5_price_score (p b : ℚ) (hb : 0 < b) :
    priceScore (fin b) (fin b) = fin 100 ∧
    (∀ q, 0 < q → q < b →
      70 ≤ (priceScore (fin q) (fin b)).toQ ∧ (priceScore (fin q) (fin b)).toQ ≤ 100) ∧
    (∀ p1 p2, 0 < p1 → p1 < p2 → p2 < b →
      (priceScore (fin p1) (fin b)).toQ < (priceScore (fin p2) (fin b)).toQ) ∧
    (b < p →
      priceScore (fin p) (fin b) =
        fin (max 5 (100 - (if (p - b) / b ≤ 1/2 then ((p - b) / b) * 100
          else min (50 + ((p - b) / b - 1/2) * 90) 95))) ∧
      5 ≤ (priceScore (fin p) (fin b)).toQ) ∧
    (∀ price budget : JSNum,
      (price.isFinite = false ∨ jle price (fin 0) = true ∨
       budget.isFinite = false ∨ jle budget (fin 0) = true) →
      priceScore price budget = fin 0) ∧
    (priceScore (fin (2 * b)) (fin b)).toQ < (priceScore (fin (11/10 * b)) (fin b)).toQ := by
  have hbne : b ≠ 0 := ne_of_gt hb
  refine ⟨priceScore_at_budget b hb, ?_, ?_, ?_, ?_, ?_⟩
  · intro q hq hqb
    rw [priceScore_below q b hq hqb, toQ_fin]
    have hr0 : 0 < q / b := div_pos hq hb
    have hr1 : q / b < 1 := (div_lt_one hb).mpr hqb
    have := belowQ_bounds (q / b) hr0 hr1
    exact ⟨this.1.le, this.2.le⟩
  · intro p1 p2 h1 h2 h3
    rw [priceScore_below p1 b h1 (h2.trans h3), priceScore_below p2 b (h1.trans h2) h3,
      toQ_fin, toQ_fin]
    exact belowQ_strictMono _ _ ((div_lt_div_iff_of_pos_right hb).mpr h2)
  · intro h
    have hratio : p / b - 1 = (p - b) / b := by
      field_simp
    constructor
    · rw [priceScore_above p b hb h, aboveQ_claim_form, hratio]
    · rw [priceScore_above p b hb h, toQ_fin]
      exact le_max_left _ _
  · intro price budget hcase
    rcases hcase with h | h | h | h <;> simp [priceScore, h, ite_self]
  · rw [priceScore_above (2 * b) b hb (by linarith),
      priceScore_above (11/10 * b) b hb (by linarith), toQ_fin, toQ_fin]
    have h1 : (2 * b) / b = 2 := by field_simp
    have h2 : (11/10 * b) / b = 11/10 := by
      field_simp
      ring
    rw [h1, h2]
    norm_num [aboveQ]

/-- Witness for C5 with budget 100 and price 200. -/
theorem claim5_price_score_witness :
    priceScore (fin 100) (fin 100) = fin 100 ∧
    (priceScore (fin (2 * 100)) (fin 100)).toQ < (priceScore (fin (11/10 * 100)) (fin 100)).toQ :=
  ⟨(claim5_price_score 200 100 (by norm_num)).1,
   (claim5_price_score 200 100 (by norm_num)).2.2.2.2.2⟩

/-! ### Temperature-score characterization on finite inputs -/

theorem weatherScore_in_band (t mn mx : ℚ) (h1 : mn ≤ t) (h2 : t ≤ mx) :
    weatherScore (fin t) ⟨fin mn, fin mx⟩ = fin 100 := by
  simp [weatherScore, jle_fin, h1, h2]

theorem weatherScore_out_band (t mn mx : ℚ) (h : ¬ (mn ≤ t ∧ t ≤ mx)) :
    weatherScore (fin t) ⟨fin mn, fin mx⟩ =
      fin (max 5 (100 -
        min ((if t < mn then mn - t else t - mx) / max (mx - mn) 5 * 50) 95)) := by
  have hR : (0 : ℚ) < max (mx - mn) 5 := lt_of_lt_of_le (by norm_num) (le_max_right _ _)
  have hRne : max (mx - mn) 5 ≠ 0 := ne_of_gt hR
  simp only [weatherScore, jle_fin, jlt_fin, jsub_fin, jmax_fin, decide_eq_true_eq,
    Bool.and_eq_true]
  rw [if_neg h]
  rcases lt_or_le t mn with hlt | hge
  · rw [if_pos hlt, if_pos hlt, jdiv_fin _ _ hRne, jmul_fin, jmin_fin, jsub_fin, jmax_fin]
  · have hmx : mx < t := not_le.mp (fun hc => h ⟨hge, hc⟩)
    rw [if_neg (not_lt.mpr hge), if_pos hmx, if_neg (not_lt.mpr hge),
      jdiv_fin _ _ hRne, jmul_fin, jmin_fin, jsub_fin, jmax_fin]

theorem weatherScore_above_dist (mn mx d : ℚ) (hband : mn ≤ mx) (hd : 0 < d) :
    weatherScore (fin (mx + d)) ⟨fin mn, fin mx⟩ =
      fin (max 5 (100 - min (d * 50 / max (mx - mn) 5) 95)) := by
  have hout : ¬ (mn ≤ mx + d ∧ mx + d ≤ mx) := by
    rintro ⟨_, hc⟩
    linarith
  rw [weatherScore_out_band _ _ _ hout, if_neg (by push_neg; linarith)]
  have harith : mx + d - mx = d := by ring
  rw [harith, div_mul_eq_mul_div]

/-- Claim C6: the temperature sub-score is exactly 100 inside the band;
outside, it equals `100 - min (d / max (hi - lo) 5 * 50) 95` floored at 5,
where `d` is the distance to the nearest bound; in the uncapped region it is
strictly between 5 and 100 and strictly decreasing in the distance; it never
drops below 5; and `weatherScore 20 (15, 25) = 100`. -/
theorem claim6_weather_score (mn mx : ℚ) (hband : mn ≤ mx) :
    (∀ t, mn ≤ t → t ≤ mx → weatherScore (fin t) ⟨fin mn, fin mx⟩ = fin 100) ∧
    (∀ t, t < mn ∨ mx < t →
      weatherScore (fin t) ⟨fin mn, fin mx⟩ =
        fin (max 5 (100 -
          min ((if t < mn then mn - t else t - mx) / max (mx - mn) 5 * 50) 95))) ∧
    (∀ d, 0 < d → d * 50 < 95 * max (mx - mn) 5 →
      5 < (weatherScore (fin (mx + d)) ⟨fin mn, fin mx⟩).toQ ∧
      (weatherScore (fin (mx + d)) ⟨fin mn, fin mx⟩).toQ < 100) ∧
    (∀ d1 d2, 0 < d1 → d1 < d2 → d2 * 50 ≤ 95 * max (mx - mn) 5 →
      (weatherScore (fin (mx + d2)) ⟨fin mn, fin mx⟩).toQ <
        (weatherScore (fin (mx + d1)) ⟨fin mn, fin mx⟩).toQ) ∧
    (∀ t, 5 ≤ (weatherScore (fin t) ⟨fin mn, fin mx⟩).toQ) ∧
    weatherScore (fin 20) ⟨fin 15, fin 25⟩ = fin 100 := by
  have hR : (0 : ℚ) < max (mx - mn) 5 := lt_of_lt_of_le (by norm_num) (le_max_right _ _)
  refine ⟨?_, ?_, ?_, ?_, ?_, weatherScore_in_band 20 15 25 (by norm_num) (by norm_num)⟩
  · intro t h1 h2
    exact weatherScore_in_band t mn mx h1 h2
  · intro t ht
    apply weatherScore_out_band
    rcases ht with h | h
    · rintro ⟨hc, _⟩
      exact absurd hc (not_le.mpr h)
    · rintro ⟨_, hc⟩
      exact absurd hc (not_le.mpr h)
  · intro d hd hcap
    rw [weatherScore_above_dist mn mx d hband hd, toQ_fin]
    have hlt95 : d * 50 / max (mx - mn) 5 < 95 := (div_lt_iff hR).mpr (by linarith)
    have hpos : 0 < d * 50 / max (mx - mn) 5 := div_pos (by linarith) hR
    rw [min_eq_left hlt95.le, max_eq_right (by linarith)]
    constructor <;> linarith
  · intro d1 d2 h1 h12 hcap
    have hcap1 : d1 * 50 ≤ 95 * max (mx - mn) 5 := by nlinarith
    rw [weatherScore_above_dist mn mx d1 hband h1,
      weatherScore_above_dist mn mx d2 hband (h1.trans h12), toQ_fin, toQ_fin]
    have hle1 : d1 * 50 / max (mx - mn) 5 ≤ 95 := (div_le_iff hR).mpr (by linarith)
    have hle2 : d2 * 50 / max (mx - mn) 5 ≤ 95 := (div_le_iff hR).mpr (by linarith)
    have hstrict : d1 * 50 / max (mx - mn) 5 < d2 * 50 / max (mx - mn) 5 :=
      (div_lt_div_iff_of_pos_right hR).mpr (by linarith)
    rw [min_eq_left hle1, min_eq_left hle2]
    have e1 : max (5 : ℚ) (100 - d1 * 50 / max (mx - mn) 5) =
        100 - d1 * 50 / max (mx - mn) 5 := max_eq_right (by linarith)
    have e2 : max (5 : ℚ) (100 - d2 * 50 / max (mx - mn) 5) =
        100 - d2 * 50 / max (mx - mn) 5 := max_eq_right (by linarith)
    rw [e1, e2]
    linarith
  · intro t
    by_cases hin : mn ≤ t ∧ t ≤ mx
    · rw [weatherScore_in_band t mn mx hin.1 hin.2, toQ_fin]
      norm_num
    · rw [weatherScore_out_band t mn mx hin, toQ_fin]
      exact le_max_left _ _

/-- Witness for C6 with the band (15, 25) and an out-of-band distance 5. -/
theorem claim6_weather_score_witness :
    weatherScore (fin 20) ⟨fin 15, fin 25⟩ = fin 100 ∧
    5 < (weatherScore (fin (25 + 5)) ⟨fin 15, fin 25⟩).toQ ∧
    (weatherScore (fin (25 + 5)) ⟨fin 15, fin 25⟩).toQ < 100 :=
  ⟨(claim6_weather_score 15 25 (by norm_num)).2.2.2.2.2,
   ((claim6_weather_score 15 25 (by norm_num)).2.2.1 5 (by norm_num) (by norm_num)).1,
   ((claim6_weather_score 15 25 (by norm_num)).2.2.1 5 (by norm_num) (by norm_num)).2⟩

/-! ### Tolerant-decoding lemmas -/

theorem skipWs_nil_iff (l : List Char) : skipWs l = [] ↔ ∀ c ∈ l, isJsonWs c = true := by
  induction l with
  | nil => simp [skipWs]
  | cons c cs ih =>
    by_cases hc : isJsonWs c = true
    · simp [skipWs, hc, ih]
    · simp [skipWs, hc]

theorem skipWs_head_not_ws : ∀ (l : List Char) (c : Char) (rest : List Char),
    skipWs l = c :: rest → isJsonWs c = false := by
  intro l
  induction l with
  | nil => intro c rest h; simp [skipWs] at h
  | cons d ds ih =>
    intro c rest h
    by_cases hd : isJsonWs d = true
    · rw [skipWs, if_pos hd] at h
      exact ih c rest h
    · rw [skipWs, if_neg hd] at h
      obtain ⟨rfl, -⟩ := List.cons.inj h
      exact Bool.not_eq_true _ |>.mp hd

theorem skipWs_of_trim_nil (cs : List Char) (h : trimChars cs = []) : skipWs cs = [] := by
  have h1 : skipWs (skipWs cs).reverse = [] := by
    have := congrArg List.reverse h
    simpa [trimChars] using this
  have h2 := (skipWs_nil_iff _).mp h1
  cases hcs : skipWs cs with
  | nil => rfl
  | cons d ds =>
    have hd : isJsonWs d = false := skipWs_head_not_ws cs d ds hcs
    have hmem : d ∈ (skipWs cs).reverse := by
      rw [hcs]
      simp
    have hws := h2 d hmem
    rw [hd] at hws
    exact absurd hws (by simp)

theorem jsonParseChars_of_skipWs_nil (cs : List Char) (h : skipWs cs = []) :
    jsonParseChars cs = none := by
  unfold jsonParseChars
  rw [parseVal, h]

/-- Claim C7: the upstream decoder tries, in order, strict JSON parse, the
four structural repairs, and errs only when everything fails; in particular
the fragment `"points": [...]` without outer braces decodes through the
repair path into a single observation. -/
theorem claim7_tolerant_decode :
    (∀ (text : String) (v : Json), trimChars text.toList ≠ [] →
      jsonParse text = some v → rlDecode text = .ok v) ∧
    (∀ (text e : String), rlDecode text = .error e →
      jsonParse text = none ∧
      repairLeadColon (trimChars text.toList) = none ∧
      repairLeadPattern (trimChars text.toList) = none ∧
      repairBareArray (trimChars text.toList) = none ∧
      repairEmbedded (trimChars text.toList) = none) ∧
    jsonParse "\"points\": [\x7b\"timestamp\":\"2024-01-01T00:00:00Z\",\"temperature\":20\x7d]" =
      none ∧
    rlDecode "\"points\": [\x7b\"timestamp\":\"2024-01-01T00:00:00Z\",\"temperature\":20\x7d]" =
      .ok (Json.obj [("points", Json.arr [Json.obj
        [("timestamp", Json.str "2024-01-01T00:00:00Z"),
         ("temperature", Json.num 20)]])]) := by
  refine ⟨?_, ?_, rfl, rfl⟩
  · intro text v hntrim hparse
    rw [jsonParse] at hparse
    simp only [String.toList] at hparse hntrim
    simp [rlDecode, hparse, List.length_eq_zero, hntrim]
  · intro text e h
    by_cases htrim : trimChars text.toList = []
    · have hws : skipWs text.toList = [] := skipWs_of_trim_nil _ htrim
      refine ⟨?_, ?_, ?_, ?_, ?_⟩
      · rw [jsonParse]
        exact jsonParseChars_of_skipWs_nil _ hws
      · rw [htrim]; rfl
      · rw [htrim]; rfl
      · rw [htrim]; rfl
      · rw [htrim]; rfl
    · have hlen : ¬ ((trimChars text.data).length = 0) := by
        simpa [List.length_eq_zero, String.toList] using htrim
      simp only [rlDecode, String.toList] at h
      rw [if_neg hlen] at h
      cases e1 : jsonParseChars text.data with
      | some v => rw [e1] at h; exact absurd h (by simp)
      | none =>
        rw [e1] at h
        cases e2 : repairLeadColon (trimChars text.data) with
        | some v => rw [e2] at h; exact absurd h (by simp)
        | none =>
          rw [e2] at h
          cases e3 : repairLeadPattern (trimChars text.data) with
          | some v => rw [e3] at h; exact absurd h (by simp)
          | none =>
            rw [e3] at h
            cases e4 : repairBareArray (trimChars text.data) with
            | some v => rw [e4] at h; exact absurd h (by simp)
            | none =>
              rw [e4] at h
              cases e5 : repairEmbedded (trimChars text.data) with
              | some v => rw [e5] at h; exact absurd h (by simp)
              | none =>
                exact ⟨by rw [jsonParse]; exact e1, e2, e3, e4, e5⟩

/-- Witness for C7: a strict-parsing body decodes directly. -/
theorem claim7_tolerant_decode_witness : rlDecode "1" = .ok (Json.num 1) :=
  claim7_tolerant_decode.1 "1" (Json.num 1) (by decide) rfl

/-! ### Flight-search lemmas -/

/-- The merged retained-offer list, in provider order, with the bare
`flights` fallback used only when the first two lists retain nothing. -/
def mergedOffers (best other alt : List Json) : List FlightPrice :=
  if (retainOffers best ++ retainOffers other).length = 0 then retainOffers alt
  else retainOffers best ++ retainOffers other

theorem serpSearch_eq (best other alt : List Json) :
    serpSearch best other alt =
      (chooseCheapest (mergedOffers best other alt),
       List.insertionSort byPrice (mergedOffers best other alt)) := rfl

theorem foldCheapest_spec (l : List FlightPrice) (c : FlightPrice) :
    (∀ x ∈ c :: l, (foldCheapest c l).price ≤ x.price) ∧
    ∃ pre suf, c :: l = pre ++ (foldCheapest c l) :: suf ∧
      ∀ y ∈ pre, (foldCheapest c l).price < y.price := by
  induction l generalizing c with
  | nil =>
    constructor
    · intro x hx
      rcases List.mem_singleton.mp hx with rfl
      exact le_refl _
    · exact ⟨[], [], rfl, by simp⟩
  | cons y ys ih =>
    by_cases hy : y.price < c.price
    · have heq : foldCheapest c (y :: ys) = foldCheapest y ys := by
        rw [foldCheapest, List.foldl_cons, if_pos hy]
        rfl
      rw [heq]
      obtain ⟨hmin, pre, suf, hsplit, hpre⟩ := ih y
      have hry : (foldCheapest y ys).price ≤ y.price := hmin y (List.mem_cons_self _ _)
      refine ⟨?_, c :: pre, suf, by rw [List.cons_append, ← hsplit], ?_⟩
      · intro x hx
        rcases List.mem_cons.mp hx with rfl | hx
        · linarith
        · exact hmin x hx
      · intro z hz
        rcases List.mem_cons.mp hz with rfl | hz
        · linarith
        · exact hpre z hz
    · have hcy : c.price ≤ y.price := not_lt.mp hy
      have heq : foldCheapest c (y :: ys) = foldCheapest c ys := by
        rw [foldCheapest, List.foldl_cons, if_neg hy]
        rfl
      rw [heq]
      obtain ⟨hmin, pre, suf, hsplit, hpre⟩ := ih c
      have hrc : (foldCheapest c ys).price ≤ c.price := hmin c (List.mem_cons_self _ _)
      constructor
      · intro x hx
        rcases List.mem_cons.mp hx with rfl | hx
        · exact hrc
        · rcases List.mem_cons.mp hx with rfl | hx2
          · linarith
          · exact hmin x (List.mem_cons_of_mem _ hx2)
      · cases pre with
        | nil =>
          obtain ⟨hc0, -⟩ := List.cons.inj hsplit.symm
          refine ⟨[], y :: ys, ?_, by simp⟩
          rw [List.nil_append, hc0]
        | cons p0 pre2 =>
          rw [List.cons_append] at hsplit
          obtain ⟨hp0, hys⟩ := List.cons.inj hsplit
          have hltc : (foldCheapest c ys).price < c.price := by
            have := hpre p0 (List.mem_cons_self _ _)
            rw [← hp0] at this
            exact this
          refine ⟨c :: y :: pre2, suf, ?_, ?_⟩
          · rw [List.cons_append, List.cons_append, ← hys]
          · intro z hz
            rcases List.mem_cons.mp hz with rfl | hz
            · exact hltc
            · rcases List.mem_cons.mp hz with rfl | hz2
              · linarith
              · exact hpre z (List.mem_cons_of_mem _ hz2)

theorem chooseCheapest_none_iff (l : List FlightPrice) :
    chooseCheapest l = none ↔ l = [] := by
  cases l <;> simp [chooseCheapest]

theorem chooseCheapest_spec (l : List FlightPrice) (c : FlightPrice)
    (h : chooseCheapest l = some c) :
    c ∈ l ∧ (∀ x ∈ l, c.price ≤ x.price) ∧
    ∃ pre suf, l = pre ++ c :: suf ∧ ∀ y ∈ pre, c.price < y.price := by
  cases l with
  | nil => simp [chooseCheapest] at h
  | cons x xs =>
    rw [chooseCheapest, Option.some.injEq] at h
    obtain ⟨hmin, pre, suf, hsplit, hpre⟩ := foldCheapest_spec xs x
    rw [h] at hmin hsplit hpre
    refine ⟨?_, hmin, pre, suf, hsplit, hpre⟩
    rw [hsplit]
    exact List.mem_append_right _ (List.mem_cons_self _ _)

/-- Counterexample to C8: an offer whose `price` field is the finite
negative number -5 is NOT discarded — `extractPrice` passes raw numbers
through and the truthiness test only rejects null, NaN and 0 — so it is
retained, returned, and even selected as `cheapest`, contradicting "discards
offers whose price field yields no finite positive number". -/
theorem claim8_counterexample :
    extractPrice (some (Json.num (-5))) = some (-5) ∧
    ((-5 : ℚ) < 0) ∧
    (serpSearch [Json.obj [("price", Json.num (-5))]] [] []).2 =
      [⟨-5, Json.obj [("price", Json.num (-5))]⟩] ∧
    (serpSearch [Json.obj [("price", Json.num (-5))]] [] []).1 =
      some ⟨-5, Json.obj [("price", Json.num (-5))]⟩ :=
  ⟨rfl, by norm_num, rfl, rfl⟩

/-- Claim C8 (amended): flight search discards an offer exactly when its
price extraction yields nothing or the (falsy) number 0 — a finite negative
price is retained; the returned list is the retained merge sorted ascending
by price, and `cheapest` is the minimum-price retained offer, ties broken
in favor of the offer appearing earlier in provider order. -/
theorem claim8_amended (best other alt : List Json) :
    List.Sorted byPrice (serpSearch best other alt).2 ∧
    (serpSearch best other alt).2.Perm (mergedOffers best other alt) ∧
    (∀ o : Json, (extractPrice (o.getField "price") = none ∨
        extractPrice (o.getField "price") = some 0) → retainOffers [o] = []) ∧
    (∀ (o : Json) (p : ℚ), extractPrice (o.getField "price") = some p → p ≠ 0 →
      retainOffers [o] = [⟨p, o⟩]) ∧
    ((serpSearch best other alt).1 = none ↔ mergedOffers best other alt = []) ∧
    (∀ c, (serpSearch best other alt).1 = some c →
      c ∈ mergedOffers best other alt ∧
      (∀ x ∈ mergedOffers best other alt, c.price ≤ x.price) ∧
      ∃ pre suf, mergedOffers best other alt = pre ++ c :: suf ∧
        ∀ y ∈ pre, c.price < y.price) := by
  refine ⟨?_, ?_, ?_, ?_, ?_, ?_⟩
  · rw [serpSearch_eq]
    exact List.sorted_insertionSort byPrice _
  · rw [serpSearch_eq]
    exact List.perm_insertionSort byPrice _
  · intro o h
    rcases h with h | h <;> simp [retainOffers, h]
  · intro o p hp hne
    simp [retainOffers, hp, hne]
  · rw [serpSearch_eq]
    exact chooseCheapest_none_iff _
  · intro c hc
    rw [serpSearch_eq] at hc
    exact chooseCheapest_spec _ c hc

/-- Witness for the amended C8: a concrete single-offer search where the
cheapest element is located in the merged list with nothing cheaper before
it. -/
theorem claim8_amended_witness :
    (⟨10, Json.obj [("price", Json.num 10)]⟩ : FlightPrice) ∈
      mergedOffers [Json.obj [("price", Json.num 10)]] [] [] :=
  ((claim8_amended [Json.obj [("price", Json.num 10)]] [] []).2.2.2.2.2
    ⟨10, Json.obj [("price", Json.num 10)]⟩ rfl).1
